import Mathlib

/-!
Verification development for the `file-search-app` backend
(`src/backend/main.py`).

The Python source is shallowly embedded: strings are `List Char`, byte
streams are `List Nat`, fallible code returns `Except`/`Option`, and the
mutable global cancellation flag is a pure function of how many times it
has been polled.  Filesystem data (the output of `os.walk`, file contents,
readability) is passed in as explicit data.  `os.path.realpath` is
modelled as the identity, i.e. the model filesystem has no symbolic
links; the code treats the realpath check as best-effort.  The MD5 digest
of `quick_hash` is modelled as the byte sequence fed to it (the sequence
of `hash.update` payloads concatenated): digest equality in the model is
equality of the hashed streams, i.e. MD5 is treated as collision-free,
exactly as the code's duplicate detection assumes.
-/

namespace FileSearchApp

/-! ### Decimal rendering of a natural number, `str(n).encode()` -/

/-- Fuel-driven most-significant-first decimal digits (as ASCII byte values)
of `n`; empty for `n = 0`.  Mirrors the digit extraction done by Python's
`str` for a nonnegative integer. -/
def decBytesAux : Nat → Nat → List Nat
  | 0, _ => []
  | fuel + 1, n => if n = 0 then [] else decBytesAux fuel (n / 10) ++ [n % 10 + 48]

/-- `str(n).encode()` for a natural number `n`: ASCII bytes of the decimal
representation. -/
def decBytes (n : Nat) : List Nat :=
  if n = 0 then [48] else decBytesAux n n

/-! ### POSIX path strings (`posixpath` operations used by the validator)

Paths are `List Char` (Python `str`).  `os.sep` is `'/'`. -/

/-- Python `s.split('/')`. -/
def splitOnSlash : List Char → List (List Char)
  | [] => [[]]
  | c :: cs =>
    let r := splitOnSlash cs
    if c = '/' then [] :: r
    else
      match r with
      | [] => [[c]]
      | p :: ps => (c :: p) :: ps

/-- Python `'/'.join(parts)`. -/
def intercalateSlash : List (List Char) → List Char
  | [] => []
  | [p] => p
  | p :: ps => p ++ '/' :: intercalateSlash ps

/-- Python `s.lstrip('/')`. -/
def lstripSlash : List Char → List Char
  | [] => []
  | c :: cs => if c = '/' then lstripSlash cs else c :: cs

/-- Python `os.path.join(a, b)` on POSIX, for the two-argument case. -/
def pyJoin (a b : List Char) : List Char :=
  if b.take 1 = ['/'] then b
  else if a = [] ∨ a.getLast? = some '/' then a ++ b
  else a ++ '/' :: b

/-- The component-processing loop of `posixpath.normpath`: skip empty and
`.` components, append ordinary components, and let `..` pop the previous
component (kept literally when the path is relative and nothing can be
popped, or when the previous component is itself a kept `..`). -/
def normpathComps (initialAbs : Bool) (acc : List (List Char)) :
    List (List Char) → List (List Char)
  | [] => acc
  | comp :: rest =>
    if comp = [] ∨ comp = ['.'] then normpathComps initialAbs acc rest
    else if comp ≠ ['.', '.'] ∨ (¬ initialAbs ∧ acc = []) ∨
        (acc ≠ [] ∧ acc.getLast? = some ['.', '.']) then
      normpathComps initialAbs (acc ++ [comp]) rest
    else normpathComps initialAbs acc.dropLast rest

/-- Python `os.path.normpath` on POSIX: collapse repeated slashes, drop
`.` components and resolve `..` components lexically, preserving the
special exactly-two-leading-slashes case. -/
def normpath (p : List Char) : List Char :=
  if p = [] then ['.']
  else
    let slashes : Nat :=
      if p.take 3 = ['/', '/', '/'] then 1
      else if p.take 2 = ['/', '/'] then 2
      else if p.take 1 = ['/'] then 1
      else 0
    let newComps := normpathComps (slashes ≠ 0) [] (splitOnSlash p)
    let res := List.replicate slashes '/' ++ intercalateSlash newComps
    if res = [] then ['.'] else res

/-- The base-directory literal `"/app/host_root"` hard-coded by the
backend (`main.py` line 81 and the analyzer/search endpoints). -/
def hostRoot : List Char := "/app/host_root".toList

/-- Failure reasons of `validate_and_resolve_path`; each corresponds to one
`HTTPException` raise site.  All of them are `InvalidPath` outcomes in the
sense of the specification's error taxonomy. -/
inductive PathError where
  | nullByte
  | traversal
  | tilde
  | absolutePath
  | outsideBase
  | symlinkOutside
  deriving DecidableEq, Repr

/-- The tail of `validate_and_resolve_path` (`main.py` 114-143): normalize
the candidate path, check it is under the base (prefix check), then repeat
the check on `os.path.realpath` of it (realpath modelled as the identity:
the model filesystem has no symbolic links), and return it. -/
def finishValidation (basePathStr cand : List Char) : Except PathError (List Char) :=
  if ¬ List.isPrefixOf (basePathStr ++ ['/']) (normpath cand) ∧
      normpath cand ≠ basePathStr then
    .error .outsideBase
  else if ¬ List.isPrefixOf (basePathStr ++ ['/']) (normpath cand) ∧
      normpath cand ≠ basePathStr then
    .error .symlinkOutside
  else .ok (normpath cand)

/-- `validate_and_resolve_path(user_path, base_path)` (`main.py` 54-143).
`basePathStr` is `str(base_path.resolve())`; resolution of the base is
modelled as the identity (the base is an already-normalized absolute
path).  Inputs that already start with the literal `"/app/host_root"` are
used as the candidate as-is; all other inputs go through the `..`/`~`/
absolute-path checks before being joined onto the base. -/
def validate_and_resolve_path (userPath basePathStr : List Char) :
    Except PathError (List Char) :=
  if '\x00' ∈ userPath then .error .nullByte
  else if List.isPrefixOf hostRoot userPath then
    finishValidation basePathStr userPath
  else if ['.', '.'] ∈ splitOnSlash (lstripSlash userPath) ∨
      (splitOnSlash (lstripSlash userPath)).any
        (fun part => decide (['.', '.'] <:+: part)) then
    .error .traversal
  else if '~' ∈ lstripSlash userPath then .error .tilde
  else if (lstripSlash userPath).take 1 = ['/'] then .error .absolutePath
  else finishValidation basePathStr (pyJoin basePathStr (lstripSlash userPath))

/-- A path component that `normpath` keeps as-is. -/
def ordinaryComp (s : List Char) : Prop :=
  s ≠ [] ∧ s ≠ ['.'] ∧ s ≠ ['.', '.']

/-! ### Pattern matcher (`_create_search_pattern`, `_create_filename_pattern`,
line/column derivation of `_search_text_file`)

A compiled Python regex produced by these two constructors is, after
`re.escape`, a sequence of literal characters in which (filename mode
only) `\*` has been rewritten to `.*` and `\?` to `.`.  Such a pattern is
represented by a token list; `re.IGNORECASE` is modelled by lowercasing
both sides (the inputs involved are ASCII). -/

/-- One token of a compiled filename pattern: a literal character, `.`
(any single character except a line break), or `.*` (any, possibly empty,
run of non-line-break characters). -/
inductive GlobTok where
  | lit (c : Char)
  | anyOne
  | anyStar
  deriving DecidableEq, Repr

/-- `FileSearchEngine._create_filename_pattern` (`main.py` 447-467): if the
term contains `*` or `?`, escape everything else and translate the two
wildcards; otherwise the whole term is escaped and used as a substring
pattern (a pure literal-token list). -/
def create_filename_pattern (term : List Char) : List GlobTok :=
  if '*' ∈ term ∨ '?' ∈ term then
    term.map (fun c => if c = '*' then .anyStar else if c = '?' then .anyOne else .lit c)
  else
    term.map .lit

/-- Case folding used to model `re.IGNORECASE` on ASCII input. -/
def foldCase (caseSensitive : Bool) (c : Char) : Char :=
  if caseSensitive then c else c.toLower

/-- Does the token list match some prefix of `chars`?  (`.` and `.*` do not
match `'\n'`, as in Python `re` without `DOTALL`.) -/
def globMatchFrom (caseSensitive : Bool) : List GlobTok → List Char → Bool
  | [], _ => true
  | .lit c :: ts, xs =>
    match xs with
    | [] => false
    | x :: xs' =>
      (foldCase caseSensitive x = foldCase caseSensitive c) &&
        globMatchFrom caseSensitive ts xs'
  | .anyOne :: ts, xs =>
    match xs with
    | [] => false
    | x :: xs' => (x ≠ '\n') && globMatchFrom caseSensitive ts xs'
  | .anyStar :: ts, xs =>
    (List.range (xs.length + 1)).any
      (fun k => ((xs.take k).all (fun c => c ≠ '\n')) &&
        globMatchFrom caseSensitive ts (xs.drop k))

/-- `pattern.search(name)` truthiness for a compiled filename pattern: the
pattern matches starting at some position of the name (`main.py` 350). -/
def pattern_search (caseSensitive : Bool) (toks : List GlobTok)
    (name : List Char) : Bool :=
  (List.range (name.length + 1)).any
    (fun i => globMatchFrom caseSensitive toks (name.drop i))

/-- `FileSearchEngine._create_search_pattern` (`main.py` 442-445): the term
is escaped, so the compiled content pattern is the literal term together
with the case flag. -/
structure ContentPattern where
  term : List Char
  caseSensitive : Bool
  deriving DecidableEq, Repr

def create_search_pattern (term : List Char) (caseSensitive : Bool) :
    ContentPattern :=
  { term := term, caseSensitive := caseSensitive }

/-- Does the literal `term` occur at the very start of `s` (up to case
folding)?  Models a match of the escaped pattern at one position. -/
def litMatchAt (caseSensitive : Bool) (term s : List Char) : Bool :=
  List.isPrefixOf (term.map (foldCase caseSensitive)) (s.map (foldCase caseSensitive))

/-- Fuel-driven scan underlying `pattern.finditer(content)` for a literal
pattern: left-to-right, non-overlapping, advancing past each match (or by
one character for an empty pattern, as `re` does for zero-width matches). -/
def finditerAux (caseSensitive : Bool) (term : List Char) :
    Nat → List Char → Nat → List Nat
  | 0, _, _ => []
  | _ + 1, [], pos => if term = [] then [pos] else []
  | fuel + 1, s@(_ :: rest), pos =>
    if litMatchAt caseSensitive term s then
      if term = [] then pos :: finditerAux caseSensitive term fuel rest (pos + 1)
      else pos :: finditerAux caseSensitive term fuel (s.drop term.length)
        (pos + term.length)
    else finditerAux caseSensitive term fuel rest (pos + 1)

/-- Start offsets of `pattern.finditer(content)` for a compiled content
pattern. -/
def finditer (p : ContentPattern) (content : List Char) : List Nat :=
  finditerAux p.caseSensitive p.term (content.length + 1) content 0

/-- `content[:p].count('\n')` (`main.py` 531). -/
def newlineCountBefore (content : List Char) (p : Nat) : Nat :=
  (content.take p).count '\n'

/-- `content.rfind('\n', 0, p)` (`main.py` 538): index of the last `'\n'`
strictly before offset `p`, or `-1` when there is none. -/
def rfindNewline (content : List Char) (p : Nat) : Int :=
  match (content.take p).reverse.findIdx? (fun ch => ch = '\n') with
  | some k => ((content.take p).length - 1 - k : Int)
  | none => -1

/-- One stored `MatchDetail` row of `_search_text_file` (line number,
0-based column, matched line text). -/
structure TextMatchDetail where
  line_number : Nat
  match_position : Int
  line_content : List Char
  deriving DecidableEq, Repr

/-- The `MatchDetail` rows stored by `FileSearchEngine._search_text_file`
(`main.py` 528-541): for the first 10 match offsets, line number is the
count of `'\n'` before the offset plus one, and the column is the offset
minus `rfind('\n', 0, offset)` minus one. -/
def search_text_file_details (p : ContentPattern) (content : List Char) :
    List TextMatchDetail :=
  let lines := (String.mk content).splitOn "\n" |>.map String.toList
  (finditer p content).take 10 |>.map (fun start =>
    let lineNum := newlineCountBefore content start + 1
    { line_number := lineNum
      match_position := (start : Int) - rfindNewline content start - 1
      line_content := if lineNum ≤ lines.length then lines.get! (lineNum - 1) else [] })

/-- The match count `_search_text_file` returns (`main.py` 545): the full
`len(matches)`, not capped at 10. -/
def search_text_file_count (p : ContentPattern) (content : List Char) : Nat :=
  (finditer p content).length

/-! ### `quick_hash` and duplicate grouping (`analyze_directory`, phase 2)

`quick_hash` (`main.py` 1400-1434) feeds `str(file_size)` and then either
the whole content (size < 1MB) or up to three sampled 64KB windows into
MD5.  The digest is modelled as the byte stream fed to MD5 (MD5 treated as
collision-free, exactly as the code's duplicate detection does);
`readOk = false` models an I/O failure, which the bare `except` turns into
`None`. -/

/-- The byte stream `quick_hash` feeds to MD5 when reads succeed: the
decimal size, then the full content (`file_size < 1MB`) or the first 64KB,
the middle 64KB (if `file_size > 128KB`) and the last 64KB (if
`file_size > 64KB`). -/
def quickHashStream (file_size : Nat) (content : List Nat) : List Nat :=
  decBytes file_size ++
    (if file_size < 1048576 then content
     else
       content.take 65536 ++
         (if file_size > 131072 then (content.drop (file_size / 2)).take 65536
          else []) ++
         (if file_size > 65536 then (content.drop (content.length - 65536)).take 65536
          else []))

/-- `quick_hash(file_path, file_size)`: `none` models the `except` branch
(unreadable file, or `f.seek(-65536, 2)` failing because the actual
content is shorter than 64KB while the sampled branch was chosen). -/
def quick_hash (readOk : Bool) (file_size : Nat) (content : List Nat) :
    Option (List Nat) :=
  if readOk = false then none
  else if file_size ≥ 1048576 ∧ file_size > 65536 ∧ content.length < 65536 then none
  else some (quickHashStream file_size content)

/-- A phase-2 hashing candidate (an entry of `files_to_hash`). -/
structure CandFile where
  path : List Char
  size : Nat
  content : List Nat
  readOk : Bool
  deriving DecidableEq, Repr

/-- The `executor.submit(quick_hash, ...)` results, keyed by candidate
(`main.py` 1560-1572); completion order is modelled as submission order
(bucketing by digest is order-independent). -/
def hashResults (cands : List CandFile) : List (CandFile × Option (List Nat)) :=
  cands.map (fun c => (c, quick_hash c.readOk c.size c.content))

/-- `file_hashes[file_hash].append(file_info)`: append `c` to the bucket
keyed `d`, creating the bucket if absent. -/
def assocAppend {α : Type} (m : List (List Nat × List α)) (d : List Nat)
    (c : α) : List (List Nat × List α) :=
  match m with
  | [] => [(d, [c])]
  | (k, fs) :: rest =>
    if k = d then (k, fs ++ [c]) :: rest else (k, fs) :: assocAppend rest d c

/-- The `file_hashes` mapping built in phase 2: results with a `None`
digest are dropped (`if file_hash:`), the rest are bucketed by digest. -/
def buildFileHashes {α : Type} (rs : List (α × Option (List Nat))) :
    List (List Nat × List α) :=
  rs.foldl (fun m r =>
    match r.2 with
    | some d => assocAppend m d r.1
    | none => m) []

/-- Two candidates are placed in one `DuplicateGroup` iff some bucket of
the digest map contains both and has at least two members (`main.py`
1592-1606). -/
def inSameDuplicateGroup (cands : List CandFile) (a b : CandFile) : Prop :=
  ∃ g ∈ buildFileHashes (hashResults cands), a ∈ g.2 ∧ b ∈ g.2 ∧ 1 < g.2.length

/-! ### Search engine (`FileSearchEngine.search_files`, `main.py` 289-440)

The walk is passed in as the file sequence it yields; the WebSocket is a
sink `Nat → Bool` telling whether the `i`-th progress send succeeds; the
database session is dropped (the engine's counters and terminal status are
returned instead).  Archive and office extraction go through collaborator
results carried on the file (`Except` for a raising helper); text search is
the concrete `_search_text_file` model. -/

/-- `PurePath.suffix` of a file NAME (the engine calls it on `Path`
values, where it is well-defined): the last dot-extension, empty for
dotfiles and names without an (internal) dot. -/
def pathlibSuffix (name : List Char) : List Char :=
  match name.reverse.findIdx? (fun c => c = '.') with
  | none => []
  | some k =>
    let i := name.length - 1 - k
    if 0 < i ∧ i < name.length - 1 then name.drop i else []

/-- `FileSearchEngine.supported_text_extensions` (`main.py` 281-287). -/
def supported_text_extensions : List (List Char) :=
  [".txt", ".py", ".js", ".ts", ".html", ".css", ".json", ".xml", ".yml", ".yaml",
   ".md", ".rst", ".log", ".cfg", ".conf", ".ini", ".properties", ".sql",
   ".sh", ".bash", ".zsh", ".ps1", ".bat", ".cmd", ".dockerfile", ".makefile",
   ".cpp", ".c", ".h", ".hpp", ".java", ".cs", ".php", ".rb", ".go", ".rs",
   ".swift", ".kt", ".scala", ".clj", ".pl", ".r", ".m", ".mm", ".lua",
   ".vim"].map String.toList

/-- One regular file yielded by `_walk_directory`, together with the
outcomes of the external interactions the engine may have with it. -/
structure SearchFile where
  name : List Char
  size : Nat
  content : Option (List Char)
  mimeTextLike : Bool
  sniffUtf8 : Bool
  archiveMatches : Except Unit Nat
  deriving Repr

/-- The request fields the engine loop reads (`SearchRequest`,
`main.py` 218-223). -/
structure SearchRequest where
  search_term : List Char
  case_sensitive : Bool
  include_zip_files : Bool
  search_filenames : Bool
  deriving Repr

/-- `FileSearchEngine._is_text_file` (`main.py` 479-502): known text
extension, or a `text/*` MIME guess, or (for files of at most 10MB that
can be opened) the first 1KB decoding as UTF-8. -/
def is_text_file (f : SearchFile) : Bool :=
  if (pathlibSuffix f.name).map Char.toLower ∈ supported_text_extensions then true
  else if f.mimeTextLike then true
  else if f.size > 10485760 then false
  else
    match f.content with
    | none => false
    | some _ => f.sniffUtf8

/-- The content-mode dispatch of the per-file loop body (`main.py`
376-403): archives and office formats go to their helpers (modelled by the
collaborator result), recognized text files to `_search_text_file`,
anything else is skipped with zero matches. -/
def processContentFile (req : SearchRequest) (p : ContentPattern)
    (f : SearchFile) : Except Unit Nat :=
  let file_ext := (pathlibSuffix f.name).map Char.toLower
  if file_ext = ".zip".toList ∧ req.include_zip_files then f.archiveMatches
  else if file_ext ∈ ([".tar", ".gz", ".bz2", ".tgz", ".tar.gz",
      ".tar.bz2"].map String.toList) ∧ req.include_zip_files then
    f.archiveMatches
  else if file_ext ∈ ([".docx", ".doc"].map String.toList) then f.archiveMatches
  else if file_ext ∈ ([".xlsx", ".xls"].map String.toList) then f.archiveMatches
  else if file_ext ∈ ([".pptx", ".ppt"].map String.toList) then f.archiveMatches
  else if file_ext ∈ ([".odt", ".ods", ".odp"].map String.toList) then
    f.archiveMatches
  else if is_text_file f then
    match f.content with
    | none => .ok 0
    | some content => .ok (search_text_file_count p content)
  else .ok 0

/-- The terminal state of one `search_files` invocation: the session
counters and the status string written to the session row. -/
structure SearchOutcome where
  total_files : Nat
  total_matches : Nat
  status : List Char
  deriving DecidableEq, Repr

/-- The main loop of `search_files` (`main.py` 334-421): before each file,
if a websocket is attached, send a progress message — when the send fails
the loop `break`s; then count the file and search it, swallowing per-file
exceptions; at the end the session is finalized with status
`"completed"`.  `sendOk i` tells whether the `i`-th progress send (one per
examined file) reaches the consumer. -/
def search_files_loop (req : SearchRequest) (ws : Option (Nat → Bool)) :
    List SearchFile → Nat → Nat → SearchOutcome
  | [], total_files, total_matches =>
    { total_files := total_files, total_matches := total_matches
      status := "completed".toList }
  | f :: rest, total_files, total_matches =>
    let broken : Bool :=
      match ws with
      | some sendOk => ! sendOk total_files
      | none => false
    if broken then
      { total_files := total_files, total_matches := total_matches
        status := "completed".toList }
    else
      let added :=
        if req.search_filenames then
          if pattern_search req.case_sensitive
              (create_filename_pattern req.search_term) f.name then 1 else 0
        else
          match processContentFile req
              (create_search_pattern req.search_term req.case_sensitive) f with
          | .ok n => n
          | .error _ => 0
      search_files_loop req ws rest (total_files + 1) (total_matches + added)

/-! ### Directory analyzer (`analyze_directory`, `main.py` 1370-1690)

The filesystem is passed in: the `os.walk` enumeration (with hidden
directories already pruned — the model re-applies the `dirs[:]` filter to
each entry, as the code does), per-file access/stat outcomes, and the
bytes `quick_hash` would read.  The global cancellation flag is a pure
function `cancelSig : Nat → Bool` of the number of `is_cancelled()` polls
made so far (the flag is only ever set, never cleared, while a session is
registered, so any mutation schedule is such a function). -/

/-- Python exceptions that can leave a block of `analyze_directory`. -/
inductive PyExc where
  | http (code : Nat)
  | attributeError
  deriving DecidableEq, Repr

/-- Exceptions of the phase-1 per-file body: `(PermissionError, OSError)`
are caught by the inner `except` (`main.py` 1540); `AttributeError` is
not. -/
inductive Phase1Exc where
  | osError
  | attributeError
  deriving DecidableEq, Repr

/-- Attribute access `.suffix` on a Python `str`: always an
`AttributeError`, since `str` has no such attribute.  `analyze_directory`
builds `file_path` with `os.path.join` (a `str`) and then evaluates
`file_path.suffix` (`main.py` 1493 and 1511). -/
def pyStrSuffix (_s : List Char) : Except Phase1Exc (List Char) :=
  .error .attributeError

/-- One file yielded by `os.walk` during phase 1, with the outcomes of the
filesystem calls made on it. -/
structure FileMeta where
  filename : List Char
  readable : Bool
  statOk : Bool
  size : Nat
  mtime : Nat
  content : List Nat
  hashReadOk : Bool
  deriving Repr

/-- One `(root, dirs, files)` triple yielded by `os.walk`. -/
structure WalkEntry where
  root : List Char
  dirs : List (List Char)
  files : List FileMeta
  deriving Repr

/-- The parameters of `analyze_directory` the core logic reads. -/
structure AnalyzeArgs where
  path : List Char
  find_duplicates : Bool
  max_hash_size : Nat
  min_size : Option Nat
  max_size : Option Nat
  deriving Repr

/-- The filesystem as `analyze_directory` observes it. -/
structure AnalyzeWorld where
  pathExists : Bool
  pathIsDir : Bool
  walk : List WalkEntry
  deriving Repr

/-- The model of the `file_info` dictionary (`main.py` 1516-1525),
extended with the model-side fields phase-2 hashing needs. -/
structure FileInfoRec where
  name : List Char
  path : List Char
  size : Nat
  extension : List Char
  modified : Nat
  hash : Option (List Nat)
  fullPath : List Char
  content : List Nat
  hashReadOk : Bool
  deriving DecidableEq, Repr

/-- `s.replace("/app/host_root", "")` (fuel-driven so that concrete
instances evaluate. -/
def stripHostRootAux : Nat → List Char → List Char
  | 0, _ => []
  | fuel + 1, p =>
    match p with
    | [] => []
    | c :: cs =>
      if List.isPrefixOf hostRoot (c :: cs) then
        stripHostRootAux fuel ((c :: cs).drop hostRoot.length)
      else c :: stripHostRootAux fuel cs

def stripHostRoot (p : List Char) : List Char :=
  stripHostRootAux p.length p

/-- Add `n` to the entry of `k` in an insertion-ordered association list
(`defaultdict(int)` update). -/
def bumpAssoc (m : List (List Char × Nat)) (k : List Char) (n : Nat) :
    List (List Char × Nat) :=
  match m with
  | [] => [(k, n)]
  | (k', v) :: rest =>
    if k' = k then (k', v + n) :: rest else (k', v) :: bumpAssoc rest k n

/-- `size_key_map[file_size].append(file_info)` (`main.py` 1536-1538). -/
def sizeMapAdd (m : List (Nat × List FileInfoRec)) (sz : Nat)
    (fi : FileInfoRec) : List (Nat × List FileInfoRec) :=
  match m with
  | [] => [(sz, [fi])]
  | (s, fs) :: rest =>
    if s = sz then (s, fs ++ [fi]) :: rest else (s, fs) :: sizeMapAdd rest sz fi

/-- The mutable locals of phase 1, plus the count of `is_cancelled()`
polls already made. -/
structure Phase1State where
  file_list : List FileInfoRec
  file_type_counts : List (List Char × Nat)
  file_type_sizes : List (List Char × Nat)
  size_key_map : List (Nat × List FileInfoRec)
  total_size : Nat
  total_files : Nat
  total_dirs : Nat
  empty_dirs : List (List Char)
  checks : Nat
  deriving Repr

def initialPhase1State : Phase1State :=
  { file_list := [], file_type_counts := [], file_type_sizes := []
    size_key_map := [], total_size := 0, total_files := 0, total_dirs := 0
    empty_dirs := [], checks := 0 }

/-- The body of `for filename in files` (`main.py` 1492-1539) up to and
including the statistics updates.  The `.suffix` access on the joined
path string raises `AttributeError`, so the code past `main.py` 1511 is
unreachable; it is nevertheless translated below the bind for
faithfulness. -/
def phase1ProcessFile (args : AnalyzeArgs) (root : List Char)
    (f : FileMeta) : Except Phase1Exc (Option FileInfoRec) :=
  let file_path := pyJoin root f.filename
  if f.readable = false then .ok none
  else if f.statOk = false then .error .osError
  else
    let file_size := f.size
    if (match args.min_size with
        | some m => decide (file_size < m)
        | none => false : Bool) then .ok none
    else if (match args.max_size with
        | some m => decide (file_size > m)
        | none => false : Bool) then .ok none
    else do
      let suffix ← pyStrSuffix file_path
      let file_ext :=
        if suffix.map Char.toLower = [] then ".no_extension".toList
        else suffix.map Char.toLower
      .ok (some
        { name := f.filename
          path := stripHostRoot file_path
          size := file_size
          extension := file_ext
          modified := f.mtime
          hash := none
          fullPath := file_path
          content := f.content
          hashReadOk := f.hashReadOk })

/-- The statistics updates for one collected file (`main.py` 1526-1538). -/
def phase1Accumulate (args : AnalyzeArgs) (st : Phase1State)
    (fi : FileInfoRec) : Phase1State :=
  { st with
    file_list := st.file_list ++ [fi]
    file_type_counts := bumpAssoc st.file_type_counts fi.extension 1
    file_type_sizes := bumpAssoc st.file_type_sizes fi.extension fi.size
    total_size := st.total_size + fi.size
    total_files := st.total_files + 1
    size_key_map :=
      if args.find_duplicates ∧ fi.size > 0 ∧
          fi.size ≤ args.max_hash_size * 1048576 then
        sizeMapAdd st.size_key_map fi.size fi
      else st.size_key_map }

/-- The inner `for filename in files` loop (`main.py` 1486-1541): polls
cancellation every 100 files (breaking the inner loop only), skips
`(PermissionError, OSError)` per file, and lets any other exception
escape. -/
def phase1FilesLoop (args : AnalyzeArgs) (cancelSig : Nat → Bool)
    (root : List Char) : List FileMeta → Phase1State →
      Except PyExc Phase1State
  | [], st => .ok st
  | f :: rest, st =>
    if st.total_files % 100 = 0 then
      if cancelSig st.checks then .ok { st with checks := st.checks + 1 }
      else
        let st := { st with checks := st.checks + 1 }
        match phase1ProcessFile args root f with
        | .error .osError => phase1FilesLoop args cancelSig root rest st
        | .error .attributeError => .error .attributeError
        | .ok none => phase1FilesLoop args cancelSig root rest st
        | .ok (some fi) =>
          phase1FilesLoop args cancelSig root rest (phase1Accumulate args st fi)
    else
      match phase1ProcessFile args root f with
      | .error .osError => phase1FilesLoop args cancelSig root rest st
      | .error .attributeError => .error .attributeError
      | .ok none => phase1FilesLoop args cancelSig root rest st
      | .ok (some fi) =>
        phase1FilesLoop args cancelSig root rest (phase1Accumulate args st fi)

/-- The outer `for root, dirs, files in os.walk(...)` loop (`main.py`
1466-1541): polls the cancellation flag at each directory boundary,
filters hidden subdirectories, records empty directories, then runs the
files loop. -/
def phase1EntriesLoop (args : AnalyzeArgs) (cancelSig : Nat → Bool)
    (validatedPath : List Char) : List WalkEntry → Phase1State →
      Except PyExc Phase1State
  | [], st => .ok st
  | e :: rest, st =>
    if cancelSig st.checks then .ok { st with checks := st.checks + 1 }
    else
      let st := { st with checks := st.checks + 1 }
      let dirs := e.dirs.filter (fun d => ¬ List.isPrefixOf ['.'] d)
      let st := { st with total_dirs := st.total_dirs + dirs.length }
      let st :=
        if e.files.length = 0 ∧ dirs.length = 0 ∧ e.root ≠ validatedPath then
          { st with empty_dirs := st.empty_dirs ++ [stripHostRoot e.root] }
        else st
      match phase1FilesLoop args cancelSig e.root e.files st with
      | .error exc => .error exc
      | .ok st' => phase1EntriesLoop args cancelSig validatedPath rest st'

/-- `files_to_hash` (`main.py` 1550-1553): extend with every size bucket
that has at least two members, in bucket insertion order. -/
def files_to_hash (size_key_map : List (Nat × List FileInfoRec)) :
    List FileInfoRec :=
  size_key_map.foldl
    (fun acc kv => if kv.2.length > 1 then acc ++ kv.2 else acc) []

/-- The work submitted to the phase-2 thread pool (`main.py` 1559-1563).
`cancelSig` is in scope (the `is_cancelled` closure is visible here) but
is never consulted: every candidate is submitted regardless of the
cancellation flag. -/
def phase2Submit (cancelSig : Nat → Bool)
    (size_key_map : List (Nat × List FileInfoRec)) : List FileInfoRec :=
  files_to_hash size_key_map

/-- The digests collected from the pool, in submission order (`main.py`
1565-1578; `as_completed` order only permutes buckets' member order). -/
def phase2Hash (cands : List FileInfoRec) :
    List (FileInfoRec × Option (List Nat)) :=
  cands.map (fun fi => (fi, quick_hash fi.hashReadOk fi.size fi.content))

/-- One `DuplicateGroup` as assembled at `main.py` 1600-1606. -/
structure DupGroup where
  hash : List Nat
  count : Nat
  size : Nat
  wasted_space : Nat
  files : List (List Char × List Char)
  deriving DecidableEq, Repr

/-- The duplicates list and total wasted space (`main.py` 1590-1606). -/
def buildDuplicates (file_hashes : List (List Nat × List FileInfoRec)) :
    List DupGroup × Nat :=
  file_hashes.foldl
    (fun acc kv =>
      if kv.2.length > 1 then
        let group_size := (kv.2.head?.map (fun f => f.size)).getD 0
        let wasted := group_size * (kv.2.length - 1)
        (acc.1 ++ [{ hash := kv.1, count := kv.2.length, size := group_size
                     wasted_space := wasted
                     files := kv.2.map (fun f => (f.name, f.path)) }],
          acc.2 + wasted)
      else acc)
    ([], 0)

/-- Stable insertion used to model `duplicates.sort(key=wasted_space,
reverse=True)` (`main.py` 1609). -/
def insertByWasted (g : DupGroup) : List DupGroup → List DupGroup
  | [] => [g]
  | h :: t =>
    if h.wasted_space > g.wasted_space then h :: insertByWasted g t
    else g :: h :: t

def sortByWastedDesc : List DupGroup → List DupGroup
  | [] => []
  | g :: t => insertByWasted g (sortByWastedDesc t)

/-- The fixed size-range histogram (`main.py` 1626-1651). -/
def sizeDistribution (file_list : List FileInfoRec) :
    List (List Char × Nat) :=
  let count := fun (lo : Nat) (hi : Option Nat) =>
    (file_list.filter (fun fi =>
      lo ≤ fi.size ∧ (match hi with
        | some h => decide (fi.size < h)
        | none => true : Bool))).length
  [("0-1KB".toList, count 0 (some 1024)),
   ("1KB-10KB".toList, count 1024 (some 10240)),
   ("10KB-100KB".toList, count 10240 (some 102400)),
   ("100KB-1MB".toList, count 102400 (some 1048576)),
   ("1MB-10MB".toList, count 1048576 (some 10485760)),
   ("10MB-100MB".toList, count 10485760 (some 104857600)),
   ("100MB+".toList, count 104857600 none)]

/-- The result dictionary of `analyze_directory` (`main.py` 1659-1678);
`file_types` and `largest_files` listings are represented by the
underlying counters the claims reference. -/
structure AnalysisResult where
  cancelled : Bool
  path : List Char
  total_files : Nat
  total_directories : Nat
  total_size : Nat
  duplicate_files : Nat
  wasted_space : Nat
  unique_file_types : Nat
  empty_directories : Nat
  size_distribution : List (List Char × Nat)
  duplicates : List DupGroup
  empty_dirs : List (List Char)
  all_files : List FileInfoRec
  deriving Repr

/-- The HTTP status code of the `HTTPException` raised for each
validation failure (`main.py` 74-136). -/
def pathErrorCode : PathError → Nat
  | .nullByte => 400
  | .traversal => 400
  | .tilde => 400
  | .absolutePath => 400
  | .outsideBase => 403
  | .symlinkOutside => 403

/-- `analyze_directory(path, find_duplicates, max_hash_size, session_id,
min_size, max_size)` (`main.py` 1370-1690): validate the path, check it is
an existing directory, run phase 1 (metadata collection), phase 2
(selective parallel hashing — submitted unconditionally), build duplicate
groups and the result dictionary.  `HTTPException`s propagate; any other
exception — in particular the `AttributeError` from `file_path.suffix` —
becomes an HTTP 500 (`main.py` 1680-1686). -/
def analyze_directory (world : AnalyzeWorld) (args : AnalyzeArgs)
    (cancelSig : Nat → Bool) : Except PyExc AnalysisResult :=
  match validate_and_resolve_path args.path hostRoot with
  | .error e => .error (.http (pathErrorCode e))
  | .ok validated =>
    if world.pathExists = false then .error (.http 404)
    else if world.pathIsDir = false then .error (.http 400)
    else
      match phase1EntriesLoop args cancelSig validated world.walk
          initialPhase1State with
      | .error _ => .error (.http 500)
      | .ok st =>
        let file_hashes :=
          if args.find_duplicates then
            buildFileHashes (phase2Hash (phase2Submit cancelSig st.size_key_map))
          else []
        let built := if args.find_duplicates then buildDuplicates file_hashes
          else ([], 0)
        let dups := sortByWastedDesc built.1
        let cancelled := cancelSig st.checks
        .ok
          { cancelled := cancelled
            path := stripHostRoot validated
            total_files := st.total_files
            total_directories := st.total_dirs
            total_size := st.total_size
            duplicate_files := dups.foldl (fun a d => a + (d.count - 1)) 0
            wasted_space := built.2
            unique_file_types := st.file_type_counts.length
            empty_directories := st.empty_dirs.length
            size_distribution := sizeDistribution st.file_list
            duplicates := dups
            empty_dirs := st.empty_dirs
            all_files := st.file_list }

/-! ### Claim C5, C6 and C10 theorems -/

/-- A file that phase 1 actually processes past the size filters: readable,
stat-able, and within the optional `[min_size, max_size]` bounds.  Every
such file reaches the `file_path.suffix` attribute access. -/
def phase1Qualifies (args : AnalyzeArgs) (f : FileMeta) : Prop :=
  f.readable = true ∧ f.statOk = true ∧
    (match args.min_size with
     | some m => m ≤ f.size
     | none => True) ∧
    (match args.max_size with
     | some m => f.size ≤ m
     | none => True)

theorem decBytesAux_eq (fuel n : Nat) (h : n ≤ fuel) :
    decBytesAux fuel n =
      if n = 0 then [] else (Nat.digits 10 n).reverse.map (fun d => d + 48) := by
  induction fuel generalizing n with
  | zero =>
    interval_cases n
    simp [decBytesAux]
  | succ fuel ih =>
    by_cases hn : n = 0
    · simp [decBytesAux, hn]
    · have hpos : 0 < n := Nat.pos_of_ne_zero hn
      have hdiv : n / 10 ≤ fuel := by
        have : n / 10 < n := Nat.div_lt_self hpos (by norm_num)
        omega
      rw [decBytesAux, if_neg hn, ih _ hdiv, if_neg hn,
        Nat.digits_def' (by norm_num : (1:ℕ) < 10) hpos]
      by_cases hq : n / 10 = 0
      · simp [hq]
      · simp [hq, List.map_append]

theorem decBytes_eq (n : Nat) :
    decBytes n =
      if n = 0 then [48] else (Nat.digits 10 n).reverse.map (fun d => d + 48) := by
  by_cases hn : n = 0
  · simp [decBytes, hn]
  · rw [decBytes, if_neg hn, decBytesAux_eq n n (le_refl n), if_neg hn, if_neg hn]

theorem decBytes_ne_nil (n : Nat) : decBytes n ≠ [] := by
  rw [decBytes_eq]
  by_cases hn : n = 0
  · simp [hn]
  · have : Nat.digits 10 n ≠ [] := Nat.digits_ne_nil_iff_ne_zero.mpr hn
    simp [hn]
    intro hcontra
    exact this (by simpa using congrArg List.reverse hcontra)

theorem decBytes_injective : Function.Injective decBytes := by
  intro m n h
  rw [decBytes_eq, decBytes_eq] at h
  by_cases hm : m = 0 <;> by_cases hn : n = 0
  · omega
  · exfalso
    rw [if_pos hm, if_neg hn] at h
    have h48 : (48 : ℕ) ∈ (Nat.digits 10 n).reverse.map (fun d => d + 48) := by
      rw [← h]; simp
    obtain ⟨d, hd, hd48⟩ := List.mem_map.mp h48
    have hd0 : d = 0 := by omega
    have hlen : ((Nat.digits 10 n).reverse.map (fun d => d + 48)).length = 1 := by
      rw [← h]; simp
    simp only [List.length_map, List.length_reverse] at hlen
    have hdig : Nat.digits 10 n = [0] := by
      rcases hdigits : Nat.digits 10 n with _ | ⟨a, _ | ⟨b, t⟩⟩
      · simp [hdigits] at hlen
      · simp only [hdigits] at hd
        simp at hd
        have : a = 0 := by omega
        rw [this]
      · simp [hdigits] at hlen
    have := Nat.ofDigits_digits 10 n
    rw [hdig] at this
    simp [Nat.ofDigits] at this
    exact hn this.symm
  · exfalso
    rw [if_neg hm, if_pos hn] at h
    have h48 : (48 : ℕ) ∈ (Nat.digits 10 m).reverse.map (fun d => d + 48) := by
      rw [h]; simp
    obtain ⟨d, hd, hd48⟩ := List.mem_map.mp h48
    have hd0 : d = 0 := by omega
    have hlen : ((Nat.digits 10 m).reverse.map (fun d => d + 48)).length = 1 := by
      rw [h]; simp
    simp only [List.length_map, List.length_reverse] at hlen
    have hdig : Nat.digits 10 m = [0] := by
      rcases hdigits : Nat.digits 10 m with _ | ⟨a, _ | ⟨b, t⟩⟩
      · simp [hdigits] at hlen
      · simp only [hdigits] at hd
        simp at hd
        have : a = 0 := by omega
        rw [this]
      · simp [hdigits] at hlen
    have := Nat.ofDigits_digits 10 m
    rw [hdig] at this
    simp [Nat.ofDigits] at this
    exact hm this.symm
  · rw [if_neg hm, if_neg hn] at h
    have hrev : (Nat.digits 10 m).reverse = (Nat.digits 10 n).reverse := by
      have hinj : Function.Injective (fun d : ℕ => d + 48) := fun a b hab => by
        simp only [] at hab
        omega
      exact List.map_injective_iff.mpr hinj h
    have hdig : Nat.digits 10 m = Nat.digits 10 n := by
      have := congrArg List.reverse hrev
      simpa using this
    calc m = Nat.ofDigits 10 (Nat.digits 10 m) := (Nat.ofDigits_digits 10 m).symm
      _ = Nat.ofDigits 10 (Nat.digits 10 n) := by rw [hdig]
      _ = n := Nat.ofDigits_digits 10 n

theorem decBytes_length_mono {m n : Nat} (h : m ≤ n) :
    (decBytes m).length ≤ (decBytes n).length := by
  rw [decBytes_eq, decBytes_eq]
  by_cases hm : m = 0
  · by_cases hn : n = 0
    · simp [hm, hn]
    · have : Nat.digits 10 n ≠ [] := Nat.digits_ne_nil_iff_ne_zero.mpr hn
      simp only [if_pos hm, if_neg hn, List.length_map, List.length_reverse,
        List.length_singleton]
      cases hd : Nat.digits 10 n with
      | nil => exact absurd hd this
      | cons a t => simp
  · have hn : n ≠ 0 := by omega
    simp only [if_neg hm, if_neg hn, List.length_map, List.length_reverse]
    rw [Nat.digits_len 10 m (by norm_num) hm, Nat.digits_len 10 n (by norm_num) hn]
    exact Nat.succ_le_succ (Nat.log_mono_right h)

/-! ### Lemmas about the path-string helpers -/

theorem splitOnSlash_ne_nil (p : List Char) : splitOnSlash p ≠ [] := by
  cases p with
  | nil => simp [splitOnSlash]
  | cons c cs =>
    simp only [splitOnSlash]
    by_cases h : c = '/'
    · simp [h]
    · simp only [if_neg h]
      cases splitOnSlash cs <;> simp

theorem splitOnSlash_no_slash {p : List Char} {s : List Char}
    (hs : s ∈ splitOnSlash p) : '/' ∉ s := by
  induction p generalizing s with
  | nil => simp [splitOnSlash] at hs; simp [hs]
  | cons c cs ih =>
    simp only [splitOnSlash] at hs
    by_cases h : c = '/'
    · rw [if_pos h] at hs
      rcases List.mem_cons.mp hs with hs | hs
      · simp [hs]
      · exact ih hs
    · rw [if_neg h] at hs
      rcases hr : splitOnSlash cs with _ | ⟨hd, tl⟩
      · exact absurd hr (splitOnSlash_ne_nil cs)
      · rw [hr] at hs
        rcases List.mem_cons.mp hs with hs | hs
        · intro hmem
          rw [hs] at hmem
          rcases List.mem_cons.mp hmem with hmem | hmem
          · exact h hmem.symm
          · exact ih (hr ▸ List.mem_cons_self hd tl) hmem
        · exact ih (hr ▸ List.mem_cons_of_mem hd hs)

theorem splitOnSlash_chars {p : List Char} {s : List Char} {c : Char}
    (hs : s ∈ splitOnSlash p) (hc : c ∈ s) : c ∈ p := by
  induction p generalizing s with
  | nil => simp [splitOnSlash] at hs; rw [hs] at hc; simp at hc
  | cons a cs ih =>
    simp only [splitOnSlash] at hs
    by_cases h : a = '/'
    · rw [if_pos h] at hs
      rcases List.mem_cons.mp hs with hs | hs
      · rw [hs] at hc; simp at hc
      · exact List.mem_cons_of_mem a (ih hs hc)
    · rw [if_neg h] at hs
      rcases hr : splitOnSlash cs with _ | ⟨hd, tl⟩
      · exact absurd hr (splitOnSlash_ne_nil cs)
      · rw [hr] at hs
        rcases List.mem_cons.mp hs with hs | hs
        · rw [hs] at hc
          rcases List.mem_cons.mp hc with hc | hc
          · simp [hc]
          · exact List.mem_cons_of_mem a (ih (hr ▸ List.mem_cons_self hd tl) hc)
        · exact List.mem_cons_of_mem a (ih (hr ▸ List.mem_cons_of_mem hd hs) hc)

theorem lstripSlash_chars {p : List Char} {c : Char}
    (h : c ∈ lstripSlash p) : c ∈ p := by
  induction p with
  | nil => simp [lstripSlash] at h
  | cons a cs ih =>
    simp only [lstripSlash] at h
    by_cases ha : a = '/'
    · rw [if_pos ha] at h
      exact List.mem_cons_of_mem a (ih h)
    · rw [if_neg ha] at h
      exact h

theorem splitOnSlash_lstrip_mem {p : List Char} {x : List Char}
    (hx : x ≠ []) (h : x ∈ splitOnSlash p) : x ∈ splitOnSlash (lstripSlash p) := by
  induction p with
  | nil => simpa [lstripSlash] using h
  | cons a cs ih =>
    simp only [splitOnSlash] at h
    by_cases ha : a = '/'
    · rw [if_pos ha] at h
      rcases List.mem_cons.mp h with h | h
      · exact absurd h.symm (by simpa using hx)
      · simpa [lstripSlash, ha] using ih h
    · simpa [lstripSlash, ha, splitOnSlash] using h

theorem splitOnSlash_of_no_slash {p : List Char} (h : '/' ∉ p) :
    splitOnSlash p = [p] := by
  induction p with
  | nil => simp [splitOnSlash]
  | cons a cs ih =>
    have ha : a ≠ '/' := fun hc => h (by simp [hc])
    have hcs : '/' ∉ cs := fun hc => h (List.mem_cons_of_mem a hc)
    simp only [splitOnSlash, if_neg ha, ih hcs]

theorem splitOnSlash_append_slash {p t : List Char} (h : '/' ∉ p) :
    splitOnSlash (p ++ '/' :: t) = p :: splitOnSlash t := by
  induction p with
  | nil => simp [splitOnSlash]
  | cons a cs ih =>
    have ha : a ≠ '/' := fun hc => h (by simp [hc])
    have hcs : '/' ∉ cs := fun hc => h (List.mem_cons_of_mem a hc)
    simp only [List.cons_append, splitOnSlash, if_neg ha]
    rw [show splitOnSlash (List.append cs ('/' :: t)) = cs :: splitOnSlash t from ih hcs]

theorem splitOnSlash_intercalate {L : List (List Char)}
    (hne : L ≠ []) (h : ∀ s ∈ L, '/' ∉ s) :
    splitOnSlash (intercalateSlash L) = L := by
  induction L with
  | nil => exact absurd rfl hne
  | cons p ps ih =>
    cases ps with
    | nil =>
      simp only [intercalateSlash]
      exact splitOnSlash_of_no_slash (h p (by simp))
    | cons q qs =>
      have hp : '/' ∉ p := h p (by simp)
      show splitOnSlash (p ++ '/' :: intercalateSlash (q :: qs)) = _
      rw [splitOnSlash_append_slash hp,
        ih (by simp) (fun s hs => h s (List.mem_cons_of_mem p hs))]

theorem intercalateSlash_chars {L : List (List Char)} {c : Char}
    (h : c ∈ intercalateSlash L) : c = '/' ∨ ∃ s ∈ L, c ∈ s := by
  induction L with
  | nil => simp [intercalateSlash] at h
  | cons p ps ih =>
    cases ps with
    | nil =>
      simp only [intercalateSlash] at h
      exact Or.inr ⟨p, by simp, h⟩
    | cons q qs =>
      rcases List.mem_append.mp h with h | h
      · exact Or.inr ⟨p, by simp, h⟩
      · rcases List.mem_cons.mp h with h | h
        · exact Or.inl h
        · rcases ih h with h | ⟨s, hs, hcs⟩
          · exact Or.inl h
          · exact Or.inr ⟨s, List.mem_cons_of_mem p hs, hcs⟩

theorem normpathComps_ordinary {comps : List (List Char)} (abs : Bool)
    (acc : List (List Char)) (h : ∀ s ∈ comps, ordinaryComp s) :
    normpathComps abs acc comps = acc ++ comps := by
  induction comps generalizing acc with
  | nil => simp [normpathComps]
  | cons comp rest ih =>
    obtain ⟨h1, h2, h3⟩ := h comp (by simp)
    rw [normpathComps, if_neg (by tauto), if_pos (Or.inl h3),
      ih (acc ++ [comp]) (fun s hs => h s (List.mem_cons_of_mem comp hs))]
    simp

theorem normpathComps_mem {comps acc : List (List Char)} {abs : Bool}
    {x : List Char} (h : x ∈ normpathComps abs acc comps) :
    x ∈ acc ∨ x ∈ comps := by
  induction comps generalizing acc with
  | nil => exact Or.inl (by simpa [normpathComps] using h)
  | cons comp rest ih =>
    rw [normpathComps] at h
    split at h
    · rcases ih h with h | h
      · exact Or.inl h
      · exact Or.inr (List.mem_cons_of_mem comp h)
    · split at h
      · rcases ih h with h | h
        · rcases List.mem_append.mp h with h | h
          · exact Or.inl h
          · exact Or.inr (by simp at h; simp [h])
        · exact Or.inr (List.mem_cons_of_mem comp h)
      · rcases ih h with h | h
        · exact Or.inl (List.dropLast_subset acc h)
        · exact Or.inr (List.mem_cons_of_mem comp h)

theorem normpathComps_good {comps acc : List (List Char)}
    (hacc : ∀ x ∈ acc, ordinaryComp x) {x : List Char}
    (h : x ∈ normpathComps true acc comps) : ordinaryComp x := by
  induction comps generalizing acc with
  | nil => exact hacc x (by simpa [normpathComps] using h)
  | cons comp rest ih =>
    rw [normpathComps] at h
    split at h
    · exact ih hacc h
    · split at h
      · rename_i hskip hkeep
        have hcomp : ordinaryComp comp := by
          push_neg at hskip
          refine ⟨hskip.1, hskip.2, ?_⟩
          rcases hkeep with hk | hk | hk
          · exact hk
          · simp at hk
          · exfalso
            obtain ⟨hne, hlast⟩ := hk
            obtain ⟨ys, hys⟩ := List.getLast?_eq_some_iff.mp hlast
            have : ['.', '.'] ∈ acc := by rw [hys]; simp
            exact (hacc _ this).2.2 rfl
        refine ih ?_ h
        intro y hy
        rcases List.mem_append.mp hy with hy | hy
        · exact hacc y hy
        · simp at hy
          rw [hy]
          exact hcomp
      · exact ih (fun y hy => hacc y (List.dropLast_subset acc hy)) h

theorem normpath_abs_eq (c2 : Char) (rest : List Char) (h2 : c2 ≠ '/') :
    normpath ('/' :: c2 :: rest) =
      '/' :: intercalateSlash (normpathComps true [] (splitOnSlash (c2 :: rest))) := by
  have htake3 : ('/' :: c2 :: rest).take 3 ≠ ['/', '/', '/'] := by
    cases rest <;> simp [List.take] <;> intro h <;> exact absurd h h2
  have htake2 : ('/' :: c2 :: rest).take 2 ≠ ['/', '/'] := by
    simp [List.take]
    intro h
    exact absurd h h2
  have htake1 : ('/' :: c2 :: rest).take 1 = ['/'] := by simp [List.take]
  rw [normpath, if_neg (by simp)]
  simp only [htake1, if_neg htake3, if_neg htake2, if_pos rfl]
  have hsplit : splitOnSlash ('/' :: c2 :: rest) = [] :: splitOnSlash (c2 :: rest) := by
    simp [splitOnSlash]
  rw [hsplit]
  have hd : (decide ((1 : Nat) ≠ 0)) = true := by decide
  simp only [if_true, hd]
  have hskip2 : normpathComps true [] ([] :: splitOnSlash (c2 :: rest)) =
      normpathComps true [] (splitOnSlash (c2 :: rest)) := by
    simp [normpathComps]
  rw [hskip2, if_neg (by simp)]
  simp [List.replicate]

theorem normpath_fixpoint {L : List (List Char)} (hne : L ≠ [])
    (hgood : ∀ s ∈ L, '/' ∉ s ∧ ordinaryComp s) :
    normpath ('/' :: intercalateSlash L) = '/' :: intercalateSlash L := by
  obtain ⟨s, ss, rfl⟩ : ∃ s ss, L = s :: ss := by
    cases L with
    | nil => exact absurd rfl hne
    | cons s ss => exact ⟨s, ss, rfl⟩
  obtain ⟨c2, s', rfl⟩ : ∃ c2 s', s = c2 :: s' := by
    obtain ⟨-, hs1, -, -⟩ := hgood s (by simp)
    cases s with
    | nil => exact absurd rfl hs1
    | cons c2 s' => exact ⟨c2, s', rfl⟩
  have hc2 : c2 ≠ '/' := by
    intro hc
    exact (hgood (c2 :: s') (by simp)).1 (by simp [hc])
  obtain ⟨rest, hrest⟩ : ∃ rest, intercalateSlash ((c2 :: s') :: ss) = c2 :: rest := by
    cases ss <;> exact ⟨_, rfl⟩
  rw [hrest, normpath_abs_eq c2 rest hc2, ← hrest,
    splitOnSlash_intercalate hne (fun x hx => (hgood x hx).1),
    normpathComps_ordinary true [] (fun x hx => (hgood x hx).2)]
  simp

theorem isPrefixOf_true_iff {l1 l2 : List Char} :
    List.isPrefixOf l1 l2 = true ↔ l1 <+: l2 :=
  List.isPrefixOf_iff_prefix

theorem finishValidation_ok {base cand q : List Char} :
    finishValidation base cand = .ok q ↔
      q = normpath cand ∧
        ¬ (¬ List.isPrefixOf (base ++ ['/']) (normpath cand) ∧
          normpath cand ≠ base) := by
  by_cases hC : ¬ List.isPrefixOf (base ++ ['/']) (normpath cand) ∧
      normpath cand ≠ base
  · rw [finishValidation, if_pos hC]
    constructor
    · intro h
      exact absurd h (by simp)
    · intro h
      exact absurd hC h.2
  · rw [finishValidation, if_neg hC, if_neg hC]
    constructor
    · intro h
      exact ⟨(Except.ok.inj h).symm, hC⟩
    · intro h
      rw [h.1]

theorem lstripSlash_take_one (p : List Char) : (lstripSlash p).take 1 ≠ ['/'] := by
  induction p with
  | nil => simp [lstripSlash]
  | cons a cs ih =>
    simp only [lstripSlash]
    by_cases ha : a = '/'
    · simpa [ha] using ih
    · simp [ha, List.take]

theorem pyJoin_hostRoot (b : List Char) (hb : b.take 1 ≠ ['/']) :
    pyJoin hostRoot b = hostRoot ++ '/' :: b := by
  rw [pyJoin, if_neg hb, if_neg (by decide)]

theorem hostRoot_cons : hostRoot = '/' :: 'a' :: "pp/host_root".toList := by decide

/-- Common tail used to settle claim C9: a successfully validated candidate
of the shape `'/' :: 'a' :: rest` revalidates to itself. -/
theorem finishValidation_revalidate {rest q : List Char}
    (hfin : finishValidation hostRoot ('/' :: 'a' :: rest) = .ok q)
    (hnoq : '\x00' ∉ ('/' :: 'a' :: rest)) :
    validate_and_resolve_path q hostRoot = .ok q := by
  obtain ⟨hq, hcheck⟩ := finishValidation_ok.mp hfin
  rw [normpath_abs_eq 'a' rest (by decide)] at hq hcheck
  have hMgood : ∀ x ∈ normpathComps true [] (splitOnSlash ('a' :: rest)),
      '/' ∉ x ∧ ordinaryComp x := by
    intro x hx
    have hxmem : x ∈ splitOnSlash ('a' :: rest) := by
      rcases normpathComps_mem hx with h | h
      · simp at h
      · exact h
    exact ⟨splitOnSlash_no_slash hxmem, normpathComps_good (by simp) hx⟩
  have hcheckq : ¬ (¬ List.isPrefixOf (hostRoot ++ ['/']) q = true ∧ q ≠ hostRoot) := by
    rw [hq]
    exact hcheck
  have hpreq : hostRoot <+: q := by
    by_cases hP : List.isPrefixOf (hostRoot ++ ['/']) q = true
    · exact (List.prefix_append hostRoot ['/']).trans (isPrefixOf_true_iff.mp hP)
    · by_cases hE : q = hostRoot
      · rw [hE]
      · exact absurd ⟨hP, hE⟩ hcheckq
  have hMne : normpathComps true [] (splitOnSlash ('a' :: rest)) ≠ [] := by
    intro hMnil
    rw [hMnil] at hq
    simp only [intercalateSlash] at hq
    rw [hq] at hpreq
    have := hpreq.length_le
    rw [show hostRoot.length = 14 from by decide] at this
    simp at this
  have hfix : normpath q = q := by
    rw [hq]
    exact normpath_fixpoint hMne hMgood
  have hnullq : '\x00' ∉ q := by
    rw [hq]
    intro hmem
    rcases List.mem_cons.mp hmem with hc | hc
    · exact absurd hc (by decide)
    · rcases intercalateSlash_chars hc with hc | ⟨s, hs, hcs⟩
      · exact absurd hc (by decide)
      · have hsmem : s ∈ splitOnSlash ('a' :: rest) := by
          rcases normpathComps_mem hs with h | h
          · simp at h
          · exact h
        have : ('\x00' : Char) ∈ ('a' :: rest) := splitOnSlash_chars hsmem hcs
        exact hnoq (List.mem_cons_of_mem '/' this)
  have hpfxq : List.isPrefixOf hostRoot q = true := isPrefixOf_true_iff.mpr hpreq
  rw [validate_and_resolve_path, if_neg hnullq, if_pos hpfxq, finishValidation,
    hfix, if_neg hcheckq, if_neg hcheckq]

/-- Claim C9 (amended): restricted to the base directory the application
actually deploys, `"/app/host_root"`, validation is idempotent: for every
input path that validates successfully, feeding the returned normalized
path back into `validate_and_resolve_path` with the same base succeeds and
returns the same path unchanged.  (For other bases idempotence fails, see
the counterexample.) -/
theorem validate_idempotent_hostRoot {p q : List Char}
    (h : validate_and_resolve_path p hostRoot = .ok q) :
    validate_and_resolve_path q hostRoot = .ok q := by
  rw [validate_and_resolve_path] at h
  by_cases hnull : '\x00' ∈ p
  · rw [if_pos hnull] at h
    exact absurd h (by simp)
  rw [if_neg hnull] at h
  by_cases hpfx : List.isPrefixOf hostRoot p = true
  · rw [if_pos hpfx] at h
    obtain ⟨r, hr⟩ := isPrefixOf_true_iff.mp hpfx
    have hp : p = '/' :: 'a' :: ("pp/host_root".toList ++ r) := by
      rw [← hr, hostRoot_cons]
      simp
    rw [hp] at h hnull
    exact finishValidation_revalidate h hnull
  · rw [if_neg hpfx] at h
    by_cases h1 : ['.', '.'] ∈ splitOnSlash (lstripSlash p) ∨
        (splitOnSlash (lstripSlash p)).any
          (fun part => decide (['.', '.'] <:+: part))
    · rw [if_pos h1] at h
      exact absurd h (by simp)
    rw [if_neg h1] at h
    by_cases h2 : '~' ∈ lstripSlash p
    · rw [if_pos h2] at h
      exact absurd h (by simp)
    rw [if_neg h2] at h
    by_cases h3 : (lstripSlash p).take 1 = ['/']
    · rw [if_pos h3] at h
      exact absurd h (by simp)
    rw [if_neg h3, pyJoin_hostRoot _ h3] at h
    have hshape : hostRoot ++ '/' :: lstripSlash p =
        '/' :: 'a' :: ("pp/host_root".toList ++ '/' :: lstripSlash p) := by
      rw [hostRoot_cons]
      simp
    rw [hshape] at h
    refine finishValidation_revalidate h ?_
    intro hmem
    rcases List.mem_cons.mp hmem with hc | hc
    · exact absurd hc (by decide)
    rcases List.mem_cons.mp hc with hc | hc
    · exact absurd hc (by decide)
    rcases List.mem_append.mp hc with hc | hc
    · exact absurd hc (by decide)
    rcases List.mem_cons.mp hc with hc | hc
    · exact absurd hc (by decide)
    · exact hnull (lstripSlash_chars hc)

/-- Claim C1 (counterexample): the input `"/app/host_root/a/../b"` contains
a path segment equal to `".."`, yet `validate_and_resolve_path` succeeds
and returns `"/app/host_root/b"`: inputs that already start with the base
literal skip the traversal-segment check entirely and the `..` is resolved
away by normalization. -/
theorem c1_counterexample :
    ['.', '.'] ∈ splitOnSlash "/app/host_root/a/../b".toList ∧
      validate_and_resolve_path "/app/host_root/a/../b".toList hostRoot =
        .ok "/app/host_root/b".toList :=
  ⟨by decide, by rfl⟩

/-- Claim C1 (amended): for every user path that does NOT start with the
literal base prefix `"/app/host_root"`, if some path segment equals `".."`
then `validate_and_resolve_path` fails with an `InvalidPath` error and
never returns a path.  (Inputs that do start with that prefix bypass the
segment check, as the counterexample shows.) -/
theorem c1_validate_rejects_dotdot (p : List Char)
    (hpfx : ¬ List.isPrefixOf hostRoot p = true)
    (hdd : ['.', '.'] ∈ splitOnSlash p) :
    ∃ e, validate_and_resolve_path p hostRoot = .error e := by
  by_cases hnull : '\x00' ∈ p
  · exact ⟨.nullByte, by rw [validate_and_resolve_path, if_pos hnull]⟩
  · refine ⟨.traversal, ?_⟩
    rw [validate_and_resolve_path, if_neg hnull, if_neg hpfx, if_pos ?_]
    exact Or.inl (splitOnSlash_lstrip_mem (by simp) hdd)

/-- Witness for the amended claim C1 at the concrete input `"../etc"`. -/
theorem c1_witness :
    ∃ e, validate_and_resolve_path "../etc".toList hostRoot = .error e :=
  c1_validate_rejects_dotdot "../etc".toList (by decide) (by decide)

/-- Claim C9 (counterexample): idempotence fails for a general base
directory.  With base `"/data"`, the input `"x"` validates to `"/data/x"`,
but re-validating `"/data/x"` against the same base succeeds with the
DIFFERENT path `"/data/data/x"`: only inputs starting with the hard-coded
literal `"/app/host_root"` are taken as-is, every other input is re-joined
under the base after stripping leading slashes. -/
theorem c9_counterexample :
    validate_and_resolve_path "x".toList "/data".toList = .ok "/data/x".toList ∧
      validate_and_resolve_path "/data/x".toList "/data".toList =
        .ok "/data/data/x".toList ∧
      "/data/data/x".toList ≠ "/data/x".toList :=
  ⟨by rfl, by rfl, by decide⟩

/-- Witness for the amended claim C9: `"docs"` validates to
`"/app/host_root/docs"`, which re-validates to itself. -/
theorem c9_witness :
    validate_and_resolve_path "/app/host_root/docs".toList hostRoot =
      .ok "/app/host_root/docs".toList :=
  validate_idempotent_hostRoot
    (by rfl : validate_and_resolve_path "docs".toList hostRoot =
      .ok "/app/host_root/docs".toList)

/-! ### Claim C2 and C7 theorems -/

/-- Claim C2 (counterexample): the search engine applies the compiled
filename pattern with `re.search`, which is unanchored, so the pattern
`"*.log"` DOES match the filename `"access.log.gz"` (the `.*\.log` part
matches the substring `"access.log"`), contrary to the claim. -/
theorem c2_counterexample :
    pattern_search false (create_filename_pattern "*.log".toList)
      "access.log.gz".toList = true := by
  decide

/-- Claim C2 (amended): with the engine's unanchored search semantics (for
either case flag), `"*.log"` matches `access.log`, `error.log` AND
`access.log.gz`; `"rep?rt"` matches `report` and `repXrt` but not
`reprt`. -/
theorem c2_filename_pattern_examples :
    (∀ cs : Bool,
      pattern_search cs (create_filename_pattern "*.log".toList)
          "access.log".toList = true ∧
        pattern_search cs (create_filename_pattern "*.log".toList)
          "error.log".toList = true ∧
        pattern_search cs (create_filename_pattern "*.log".toList)
          "access.log.gz".toList = true ∧
        pattern_search cs (create_filename_pattern "rep?rt".toList)
          "report".toList = true ∧
        pattern_search cs (create_filename_pattern "rep?rt".toList)
          "repXrt".toList = true ∧
        pattern_search cs (create_filename_pattern "rep?rt".toList)
          "reprt".toList = false) := by
  intro cs
  cases cs
  · exact ⟨by decide, by decide, by decide, by decide, by decide, by decide⟩
  · exact ⟨by decide, by decide, by decide, by decide, by decide, by decide⟩

/-- Claim C7 (confirmed): for every match offset recorded by
`_search_text_file`, the stored line number is the count of `'\n'` before
the offset plus one and the stored column is the offset minus the index of
the nearest preceding `'\n'` minus one (with `rfind` returning `-1` when
there is none); in particular the content `"alpha\nBeta\ngamma beta"`
searched case-insensitively for `"beta"` yields exactly the two matches
(line 2, column 0) and (line 3, column 6). -/
theorem c7_line_column_derivation :
    (∀ (p : ContentPattern) (content : List Char),
      (search_text_file_details p content).map
          (fun d => (d.line_number, d.match_position)) =
        ((finditer p content).take 10).map
          (fun s => (newlineCountBefore content s + 1,
            (s : Int) - rfindNewline content s - 1))) ∧
      (search_text_file_details (create_search_pattern "beta".toList false)
          "alpha\nBeta\ngamma beta".toList).map
        (fun d => (d.line_number, d.match_position)) = [(2, 0), (3, 6)] := by
  constructor
  · intro p content
    simp only [search_text_file_details, List.map_take, List.map_map]
    congr 1
  · decide

theorem assocAppend_mem_inv {α : Type} {m : List (List Nat × List α)}
    {d k : List Nat} {x : α} {fs : List α}
    (h : (k, fs) ∈ assocAppend m d x) :
    (k, fs) ∈ m ∨
      (k = d ∧ ∃ fs₀, (k, fs₀) ∈ m ∧ fs = fs₀ ++ [x]) ∨
      (k = d ∧ fs = [x]) := by
  induction m with
  | nil =>
    simp only [assocAppend] at h
    rcases List.mem_singleton.mp h with h
    exact Or.inr (Or.inr ⟨congrArg Prod.fst h, congrArg Prod.snd h⟩)
  | cons hd rest ih =>
    obtain ⟨k', fs'⟩ := hd
    by_cases hkd : k' = d
    · rw [assocAppend, if_pos hkd] at h
      rcases List.mem_cons.mp h with h | h
      · have h1 : k = k' := (Prod.mk.injEq _ _ _ _ ▸ h).1
        have h2 : fs = fs' ++ [x] := (Prod.mk.injEq _ _ _ _ ▸ h).2
        exact Or.inr (Or.inl ⟨h1.trans hkd, fs', by rw [h1]; simp, h2⟩)
      · exact Or.inl (List.mem_cons_of_mem _ h)
    · rw [assocAppend, if_neg hkd] at h
      rcases List.mem_cons.mp h with h | h
      · exact Or.inl (List.mem_cons.mpr (Or.inl h))
      · rcases ih h with h | ⟨hk, fs₀, hmem, hfs⟩ | h
        · exact Or.inl (List.mem_cons_of_mem _ h)
        · exact Or.inr (Or.inl ⟨hk, fs₀, List.mem_cons_of_mem _ hmem, hfs⟩)
        · exact Or.inr (Or.inr h)

theorem buildFileHashes_mem_digest {α : Type}
    {rs : List (α × Option (List Nat))} {k : List Nat}
    {fs : List α} {c : α}
    (h : (k, fs) ∈ buildFileHashes rs) (hc : c ∈ fs) : (c, some k) ∈ rs := by
  suffices hgen : ∀ (m₀ : List (List Nat × List α)),
      (k, fs) ∈ rs.foldl (fun m r =>
        match r.2 with
        | some d => assocAppend m d r.1
        | none => m) m₀ →
      (c, some k) ∈ rs ∨ ∃ fs₀, (k, fs₀) ∈ m₀ ∧ c ∈ fs₀ by
    rcases hgen [] h with hdone | ⟨fs₀, hmem, -⟩
    · exact hdone
    · simp at hmem
  clear h
  induction rs with
  | nil =>
    intro m₀ h
    exact Or.inr ⟨fs, h, hc⟩
  | cons r rs ih =>
    intro m₀ h
    rcases hr2 : r.2 with _ | d
    · rw [List.foldl_cons, hr2] at h
      rcases ih m₀ h with h | h
      · exact Or.inl (List.mem_cons_of_mem r h)
      · exact Or.inr h
    · rw [List.foldl_cons, hr2] at h
      rcases ih (assocAppend m₀ d r.1) h with h | ⟨fs₀, hmem, hcfs⟩
      · exact Or.inl (List.mem_cons_of_mem r h)
      · rcases assocAppend_mem_inv hmem with hm | ⟨hk, fs₁, hfs₁, hfseq⟩ | ⟨hk, hfseq⟩
        · exact Or.inr ⟨fs₀, hm, hcfs⟩
        · rw [hfseq] at hcfs
          rcases List.mem_append.mp hcfs with hcf | hcf
          · exact Or.inr ⟨fs₁, hfs₁, hcf⟩
          · have hcx : c = r.1 := List.mem_singleton.mp hcf
            have : (c, some k) = r := by
              rw [hcx, hk, ← hr2]
            exact Or.inl (this ▸ List.mem_cons_self r rs)
        · rw [hfseq] at hcfs
          have hcx : c = r.1 := List.mem_singleton.mp hcfs
          have : (c, some k) = r := by
            rw [hcx, hk, ← hr2]
          exact Or.inl (this ▸ List.mem_cons_self r rs)

theorem inSameDuplicateGroup_digest {cands : List CandFile} {a b : CandFile}
    (h : inSameDuplicateGroup cands a b) :
    ∃ k, quick_hash a.readOk a.size a.content = some k ∧
      quick_hash b.readOk b.size b.content = some k := by
  obtain ⟨⟨k, fs⟩, hg, ha, hb, -⟩ := h
  have hga : (a, some k) ∈ hashResults cands := buildFileHashes_mem_digest hg ha
  have hgb : (b, some k) ∈ hashResults cands := buildFileHashes_mem_digest hg hb
  obtain ⟨ca, -, hca⟩ := List.mem_map.mp hga
  obtain ⟨cb, -, hcb⟩ := List.mem_map.mp hgb
  obtain ⟨h1, h1d⟩ := Prod.mk.injEq _ _ _ _ ▸ hca
  obtain ⟨h2, h2d⟩ := Prod.mk.injEq _ _ _ _ ▸ hcb
  refine ⟨k, ?_, ?_⟩
  · rw [← h1]
    exact h1d
  · rw [← h2]
    exact h2d

theorem quickHashStream_length_full {s : Nat} {c : List Nat}
    (hs : s < 1048576) : (quickHashStream s c).length = (decBytes s).length + c.length := by
  rw [quickHashStream, if_pos hs, List.length_append]

theorem quickHashStream_length_sample {s : Nat} {c : List Nat}
    (hs : ¬ s < 1048576) (hlen : c.length = s) :
    (quickHashStream s c).length = (decBytes s).length + 196608 := by
  have h131 : s > 131072 := by omega
  have h65 : s > 65536 := by omega
  rw [quickHashStream, if_neg hs, if_pos h131, if_pos h65]
  simp only [List.length_append, List.length_take, List.length_drop, hlen]
  omega

theorem quick_hash_eq_of_length {s : Nat} {c : List Nat} (hlen : c.length = s) :
    quick_hash true s c = some (quickHashStream s c) := by
  rw [quick_hash, if_neg (by simp)]
  rw [if_neg ?_]
  rintro ⟨hge, -, hlt⟩
  omega

/-- Claim C4 (counterexample): two distinct contents of byte size exactly
1MB (1048576 bytes) that agree on the three sampled 64KB windows receive
the same digest: the full-content branch requires size *strictly* less
than 1MB, so the claim's "at most 1MB" bound is off by one. -/
theorem c4_counterexample :
    (List.replicate 1048576 (0 : Nat)).length = 1048576 ∧
      (List.replicate 65536 (0 : Nat) ++ 1 :: List.replicate 983039 0).length = 1048576 ∧
      List.replicate 1048576 (0 : Nat) ≠
        List.replicate 65536 (0 : Nat) ++ 1 :: List.replicate 983039 0 ∧
      quick_hash true 1048576 (List.replicate 1048576 (0 : Nat)) =
        quick_hash true 1048576
          (List.replicate 65536 (0 : Nat) ++ 1 :: List.replicate 983039 0) := by
  have hl1 : (List.replicate 1048576 (0 : Nat)).length = 1048576 :=
    List.length_replicate 1048576 0
  have hl2 : (List.replicate 65536 (0 : Nat) ++ 1 :: List.replicate 983039 0).length =
      1048576 := by
    rw [List.length_append, List.length_replicate, List.length_cons,
      List.length_replicate]
  refine ⟨hl1, hl2, ?_, ?_⟩
  · intro h
    have hdrop := congrArg (List.drop 65536) h
    rw [List.drop_replicate, List.drop_append_eq_append_drop, List.drop_replicate,
      List.length_replicate, Nat.sub_self, List.replicate_zero, List.nil_append,
      List.drop_zero,
      show (1048576 : Nat) - 65536 = 983039 + 1 from by norm_num,
      List.replicate_succ] at hdrop
    exact absurd (List.cons.inj hdrop).1 (by norm_num)
  · have hTakeA : (List.replicate 1048576 (0 : Nat)).take 65536 =
        List.replicate 65536 0 := by
      rw [List.take_replicate, Nat.min_eq_left (by norm_num)]
    have hTakeB : (List.replicate 65536 (0 : Nat) ++
          1 :: List.replicate 983039 0).take 65536 = List.replicate 65536 0 := by
      rw [List.take_append_eq_append_take, List.length_replicate, Nat.sub_self,
        List.take_zero, List.append_nil, List.take_replicate, Nat.min_self]
    have hMidA : ((List.replicate 1048576 (0 : Nat)).drop (1048576 / 2)).take 65536 =
        List.replicate 65536 0 := by
      rw [show (1048576 : Nat) / 2 = 524288 from by norm_num, List.drop_replicate,
        show (1048576 : Nat) - 524288 = 524288 from by norm_num, List.take_replicate,
        Nat.min_eq_left (by norm_num)]
    have hMidB : ((List.replicate 65536 (0 : Nat) ++ 1 :: List.replicate 983039 0).drop
          (1048576 / 2)).take 65536 = List.replicate 65536 0 := by
      rw [show (1048576 : Nat) / 2 = 524288 from by norm_num,
        List.drop_append_eq_append_drop, List.length_replicate, List.drop_replicate,
        show (65536 : Nat) - 524288 = 0 from by norm_num, List.replicate_zero,
        List.nil_append,
        show (524288 : Nat) - 65536 = 458751 + 1 from by norm_num, List.drop_succ_cons,
        List.drop_replicate, show (983039 : Nat) - 458751 = 524288 from by norm_num,
        List.take_replicate, Nat.min_eq_left (by norm_num)]
    have hLastA : ((List.replicate 1048576 (0 : Nat)).drop
          ((List.replicate 1048576 (0 : Nat)).length - 65536)).take 65536 =
        List.replicate 65536 0 := by
      rw [List.length_replicate, show (1048576 : Nat) - 65536 = 983040 from by norm_num,
        List.drop_replicate, show (1048576 : Nat) - 983040 = 65536 from by norm_num,
        List.take_replicate, Nat.min_self]
    have hLastB : ((List.replicate 65536 (0 : Nat) ++ 1 :: List.replicate 983039 0).drop
          ((List.replicate 65536 (0 : Nat) ++ 1 :: List.replicate 983039 0).length -
            65536)).take 65536 = List.replicate 65536 0 := by
      rw [List.length_append, List.length_replicate, List.length_cons,
        List.length_replicate,
        show (65536 + (983039 + 1) : Nat) - 65536 = 983040 from by norm_num,
        List.drop_append_eq_append_drop, List.length_replicate, List.drop_replicate,
        show (65536 : Nat) - 983040 = 0 from by norm_num, List.replicate_zero,
        List.nil_append,
        show (983040 : Nat) - 65536 = 917503 + 1 from by norm_num, List.drop_succ_cons,
        List.drop_replicate, show (983039 : Nat) - 917503 = 65536 from by norm_num,
        List.take_replicate, Nat.min_self]
    have hstream : quickHashStream 1048576 (List.replicate 1048576 (0 : Nat)) =
        quickHashStream 1048576
          (List.replicate 65536 (0 : Nat) ++ 1 :: List.replicate 983039 0) := by
      rw [quickHashStream, quickHashStream,
        if_neg (by norm_num : ¬ (1048576 : Nat) < 1048576),
        if_pos (by norm_num : (1048576 : Nat) > 131072),
        if_pos (by norm_num : (1048576 : Nat) > 65536),
        hTakeA, hMidA, hLastA,
        if_neg (by norm_num : ¬ (1048576 : Nat) < 1048576),
        if_pos (by norm_num : (1048576 : Nat) > 131072),
        if_pos (by norm_num : (1048576 : Nat) > 65536),
        hTakeB, hMidB, hLastB]
    exact (quick_hash_eq_of_length hl1).trans
      ((congrArg some hstream).trans (quick_hash_eq_of_length hl2).symm)

/-- Claim C4 (amended): for every pair of files of equal byte size
*strictly* below 1MB (1048576 bytes) whose contents differ, `quick_hash`
assigns different digests (the digest stream is the size followed by the
full content), so the phase-2 grouping never places them in the same
`DuplicateGroup`. -/
theorem c4_small_files_never_cogrouped (a b : CandFile) (cands : List CandFile)
    (hsize : a.size = b.size) (hsmall : a.size < 1048576)
    (hla : a.content.length = a.size) (hlb : b.content.length = b.size)
    (hra : a.readOk = true) (hrb : b.readOk = true)
    (hne : a.content ≠ b.content) :
    quick_hash a.readOk a.size a.content ≠ quick_hash b.readOk b.size b.content ∧
      ¬ inSameDuplicateGroup cands a b := by
  have hd : quick_hash a.readOk a.size a.content ≠
      quick_hash b.readOk b.size b.content := by
    rw [hra, hrb, quick_hash_eq_of_length hla, quick_hash_eq_of_length hlb]
    intro h
    have hs := Option.some.inj h
    rw [quickHashStream, quickHashStream, if_pos hsmall,
      if_pos (hsize ▸ hsmall)] at hs
    rw [← hsize] at hs
    exact hne (List.append_inj hs rfl).2
  refine ⟨hd, fun hg => ?_⟩
  obtain ⟨k, hk1, hk2⟩ := inSameDuplicateGroup_digest hg
  exact hd (hk1.trans hk2.symm)

/-- Witness for the amended claim C4 at two concrete 2-byte files. -/
theorem c4_witness :
    quick_hash (CandFile.mk [] 2 [0, 0] true).readOk
        (CandFile.mk [] 2 [0, 0] true).size
        (CandFile.mk [] 2 [0, 0] true).content ≠
      quick_hash (CandFile.mk [] 2 [0, 1] true).readOk
        (CandFile.mk [] 2 [0, 1] true).size
        (CandFile.mk [] 2 [0, 1] true).content ∧
      ¬ inSameDuplicateGroup
        [CandFile.mk [] 2 [0, 0] true, CandFile.mk [] 2 [0, 1] true]
        (CandFile.mk [] 2 [0, 0] true) (CandFile.mk [] 2 [0, 1] true) :=
  c4_small_files_never_cogrouped
    (CandFile.mk [] 2 [0, 0] true) (CandFile.mk [] 2 [0, 1] true)
    [CandFile.mk [] 2 [0, 0] true, CandFile.mk [] 2 [0, 1] true]
    rfl (by norm_num) rfl rfl rfl rfl (by decide)

/-- Claim C8 (counterexample): a full-hashed file (size 196610, below 1MB)
and a sample-hashed file (size 19661012) can receive the SAME digest
stream, because the decimal size prefix of the larger file, "19661012",
equals the smaller size "196610" followed by the bytes `'1' '2'` that open
the smaller file's content, and the remaining streams coincide.  Hence two
files of different sizes can share a digest and be co-grouped. -/
theorem c8_counterexample :
    quick_hash true 196610 ((49 : Nat) :: 50 :: List.replicate 196608 0) =
      quick_hash true 19661012 (List.replicate 19661012 0) ∧
      (196610 : Nat) ≠ 19661012 := by
  constructor
  · have hl1 : ((49 : Nat) :: 50 :: List.replicate 196608 0).length = 196610 := by
      rw [List.length_cons, List.length_cons, List.length_replicate]
    have hl2 : (List.replicate 19661012 (0 : Nat)).length = 19661012 :=
      List.length_replicate 19661012 0
    have hd1 : decBytes 196610 = [49, 57, 54, 54, 49, 48] := by decide
    have hd2 : decBytes 19661012 = [49, 57, 54, 54, 49, 48, 49, 50] := by decide
    have hTake : (List.replicate 19661012 (0 : Nat)).take 65536 =
        List.replicate 65536 0 := by
      rw [List.take_replicate, Nat.min_eq_left (by norm_num)]
    have hMid : ((List.replicate 19661012 (0 : Nat)).drop (19661012 / 2)).take 65536 =
        List.replicate 65536 0 := by
      rw [show (19661012 : Nat) / 2 = 9830506 from by norm_num, List.drop_replicate,
        show (19661012 : Nat) - 9830506 = 9830506 from by norm_num,
        List.take_replicate, Nat.min_eq_left (by norm_num)]
    have hLast : ((List.replicate 19661012 (0 : Nat)).drop
          ((List.replicate 19661012 (0 : Nat)).length - 65536)).take 65536 =
        List.replicate 65536 0 := by
      rw [List.length_replicate,
        show (19661012 : Nat) - 65536 = 19595476 from by norm_num,
        List.drop_replicate,
        show (19661012 : Nat) - 19595476 = 65536 from by norm_num,
        List.take_replicate, Nat.min_self]
    have hstream : quickHashStream 196610 ((49 : Nat) :: 50 :: List.replicate 196608 0) =
        quickHashStream 19661012 (List.replicate 19661012 0) := by
      rw [quickHashStream, quickHashStream,
        if_pos (by norm_num : (196610 : Nat) < 1048576),
        if_neg (by norm_num : ¬ (19661012 : Nat) < 1048576),
        if_pos (by norm_num : (19661012 : Nat) > 131072),
        if_pos (by norm_num : (19661012 : Nat) > 65536),
        hTake, hMid, hLast, hd1, hd2,
        show List.replicate 65536 (0 : Nat) ++ List.replicate 65536 0 ++
            List.replicate 65536 0 = List.replicate 196608 0 from by
          rw [← List.replicate_add, ← List.replicate_add]]
      rfl
    exact (quick_hash_eq_of_length hl1).trans
      ((congrArg some hstream).trans (quick_hash_eq_of_length hl2).symm)
  · norm_num

/-- Claim C8 (amended): two hashed files sharing a digest have equal byte
sizes whenever both are hashed by the same strategy tier (both below 1MB,
or both at least 1MB): within one tier the decimal-size prefix of the
digest stream pins down the size.  Across tiers the prefix can be
absorbed by content bytes, as the counterexample shows. -/
theorem c8_same_tier_same_size (s1 s2 : Nat) (c1 c2 : List Nat)
    (h1 : c1.length = s1) (h2 : c2.length = s2)
    (hbr : s1 < 1048576 ↔ s2 < 1048576)
    (heq : quick_hash true s1 c1 = quick_hash true s2 c2) :
    s1 = s2 := by
  rw [quick_hash_eq_of_length h1, quick_hash_eq_of_length h2] at heq
  have hqs := Option.some.inj heq
  have hlen := congrArg List.length hqs
  by_cases hlt : s1 < 1048576
  · have hlt2 := hbr.mp hlt
    rw [quickHashStream_length_full hlt, quickHashStream_length_full hlt2,
      h1, h2] at hlen
    rcases Nat.lt_trichotomy s1 s2 with h | h | h
    · have := decBytes_length_mono (Nat.le_of_lt h)
      omega
    · exact h
    · have := decBytes_length_mono (Nat.le_of_lt h)
      omega
  · have hlt2 : ¬ s2 < 1048576 := fun hc => hlt (hbr.mpr hc)
    rw [quickHashStream_length_sample hlt h1,
      quickHashStream_length_sample hlt2 h2] at hlen
    have hdl : (decBytes s1).length = (decBytes s2).length := by omega
    rw [quickHashStream, quickHashStream] at hqs
    exact decBytes_injective (List.append_inj hqs hdl).1

/-- Witness for the amended claim C8 at two concrete same-tier files. -/
theorem c8_witness : (2 : Nat) = 2 :=
  c8_same_tier_same_size 2 2 [7, 8] [7, 8] rfl rfl (Iff.rfl) rfl

/-! ### Claim C3 theorems -/

/-- Claim C3 (counterexample): when the progress sink reports the consumer
gone on the very first file, the engine does stop early and does not
raise, but the session is finalized with status `"completed"` — the code
has no `"cancelled"` terminal status for searches (`main.py` 415-421 run
after the `break`). -/
theorem c3_counterexample :
    search_files_loop
        (SearchRequest.mk "x".toList false true false)
        (some (fun _ => false))
        [SearchFile.mk "a.txt".toList 3 (some "abc".toList) false true (.ok 0)]
        0 0 =
      SearchOutcome.mk 0 0 "completed".toList ∧
      "completed".toList ≠ "cancelled".toList :=
  ⟨by rfl, by decide⟩

/-- Claim C3 (amended): whenever the progress sink reports during a search
that the consumer is gone, the engine stops walking further files and
finalizes with terminal status `Completed` (not `Cancelled`), without
raising an exception to its caller; the counters reflect only the files
processed before the disconnect. -/
theorem c3_consumer_gone_stops_with_completed
    (req : SearchRequest) (sendOk : Nat → Bool) (f : SearchFile)
    (rest : List SearchFile) (total_files total_matches : Nat)
    (hfail : sendOk total_files = false) :
    search_files_loop req (some sendOk) (f :: rest) total_files total_matches =
      SearchOutcome.mk total_files total_matches "completed".toList := by
  rw [search_files_loop]
  simp [hfail]

/-- Witness for the amended claim C3: a sink that fails on the second send
stops a three-file search after one file, with status `"completed"`. -/
theorem c3_witness :
    (fun i => decide (i = 0)) 1 = false ∧
      search_files_loop
          (SearchRequest.mk "x".toList false true false)
          (some (fun i => decide (i = 0)))
          [SearchFile.mk "b.txt".toList 1 (some "x".toList) false true (.ok 0),
           SearchFile.mk "c.txt".toList 1 (some "y".toList) false true (.ok 0)]
          1 5 =
        SearchOutcome.mk 1 5 "completed".toList :=
  ⟨by decide,
    c3_consumer_gone_stops_with_completed
      (SearchRequest.mk "x".toList false true false) (fun i => decide (i = 0))
      (SearchFile.mk "b.txt".toList 1 (some "x".toList) false true (.ok 0))
      [SearchFile.mk "c.txt".toList 1 (some "y".toList) false true (.ok 0)]
      1 5 (by decide)⟩

theorem phase1ProcessFile_attrError (args : AnalyzeArgs) (root : List Char)
    (f : FileMeta) (hq : phase1Qualifies args f) :
    phase1ProcessFile args root f = .error .attributeError := by
  obtain ⟨hr, hs, hmin, hmax⟩ := hq
  rw [phase1ProcessFile, if_neg (by rw [hr]; simp),
    if_neg (by rw [hs]; simp), if_neg ?_, if_neg ?_]
  · rfl
  · revert hmax
    cases args.max_size with
    | none => intro hmax; simp
    | some m => intro hmax; simp; omega
  · revert hmin
    cases args.min_size with
    | none => intro hmin; simp
    | some m => intro hmin; simp; omega

theorem phase1FilesLoop_attrError (args : AnalyzeArgs) (root : List Char)
    (files : List FileMeta) (st : Phase1State)
    (hq : ∃ f ∈ files, phase1Qualifies args f) :
    phase1FilesLoop args (fun _ => false) root files st =
      .error .attributeError := by
  induction files generalizing st with
  | nil => simp at hq
  | cons f rest ih =>
    rcases hq with ⟨g, hg, hgq⟩
    rcases List.mem_cons.mp hg with hgf | hgrest
    · rw [hgf] at hgq
      rcases hcase : phase1ProcessFile args root f with e | v
      · have := phase1ProcessFile_attrError args root f hgq
        rw [hcase] at this
        have he := Except.error.inj this
        rw [he] at hcase
        rw [phase1FilesLoop]
        by_cases hmod : st.total_files % 100 = 0
        · rw [if_pos hmod]
          simp only [Bool.false_eq_true, if_neg (by simp : ¬ False)]
          rw [hcase]
        · rw [if_neg hmod, hcase]
      · have := phase1ProcessFile_attrError args root f hgq
        rw [hcase] at this
        exact absurd this (by simp)
    · rw [phase1FilesLoop]
      by_cases hmod : st.total_files % 100 = 0
      · rw [if_pos hmod]
        simp only [Bool.false_eq_true, if_neg (by simp : ¬ False)]
        rcases hcase : phase1ProcessFile args root f with e | v
        · cases e with
          | osError => exact ih _ ⟨g, hgrest, hgq⟩
          | attributeError => rfl
        · cases v with
          | none => exact ih _ ⟨g, hgrest, hgq⟩
          | some fi => exact ih _ ⟨g, hgrest, hgq⟩
      · rw [if_neg hmod]
        rcases hcase : phase1ProcessFile args root f with e | v
        · cases e with
          | osError => exact ih _ ⟨g, hgrest, hgq⟩
          | attributeError => rfl
        · cases v with
          | none => exact ih _ ⟨g, hgrest, hgq⟩
          | some fi => exact ih _ ⟨g, hgrest, hgq⟩

theorem phase1EntriesLoop_attrError (args : AnalyzeArgs) (vp : List Char)
    (walk : List WalkEntry) (st : Phase1State)
    (hq : ∃ e ∈ walk, ∃ f ∈ e.files, phase1Qualifies args f) :
    ∃ exc, phase1EntriesLoop args (fun _ => false) vp walk st =
      .error exc := by
  induction walk generalizing st with
  | nil => simp at hq
  | cons e rest ih =>
    rcases hq with ⟨d, hd, f, hf, hfq⟩
    rw [phase1EntriesLoop]
    simp only [Bool.false_eq_true, if_neg (by simp : ¬ False)]
    rcases List.mem_cons.mp hd with hde | hdrest
    · subst hde
      rw [phase1FilesLoop_attrError args d.root d.files _ ⟨f, hf, hfq⟩]
      exact ⟨.attributeError, rfl⟩
    · rcases hcase : phase1FilesLoop args (fun _ => false) e.root e.files _ with exc | st'
      · exact ⟨exc, rfl⟩
      · exact ih _ ⟨d, hdrest, f, hf, hfq⟩

/-- Claim C10 (confirmed): phase-1 metadata collection evaluates
`file_path.suffix` on the `str` produced by `os.path.join`, which raises
`AttributeError`; the per-file handler catches only `(PermissionError,
OSError)`, so for every directory tree containing at least one readable,
stat-able file within the size filters, `analyze_directory` aborts with an
internal HTTP 500 error instead of returning an analysis outcome. -/
theorem c10_suffix_attribute_error (world : AnalyzeWorld) (args : AnalyzeArgs)
    (vp : List Char)
    (hv : validate_and_resolve_path args.path hostRoot = .ok vp)
    (hex : world.pathExists = true) (hdir : world.pathIsDir = true)
    (hq : ∃ e ∈ world.walk, ∃ f ∈ e.files, phase1Qualifies args f) :
    analyze_directory world args (fun _ => false) = .error (.http 500) := by
  obtain ⟨exc, hexc⟩ :=
    phase1EntriesLoop_attrError args vp world.walk initialPhase1State hq
  rw [analyze_directory, hv]
  dsimp only
  rw [if_neg (by rw [hex]; simp), if_neg (by rw [hdir]; simp), hexc]

/-- Witness for claim C10: a directory with a single readable 5-byte file
aborts with HTTP 500. -/
theorem c10_witness :
    analyze_directory
        (AnalyzeWorld.mk true true
          [WalkEntry.mk "/app/host_root/d".toList []
            [FileMeta.mk "f.txt".toList true true 5 0 [1, 2, 3, 4, 5] true]])
        (AnalyzeArgs.mk "d".toList true 10 none none)
        (fun _ => false) =
      .error (.http 500) :=
  c10_suffix_attribute_error
    (AnalyzeWorld.mk true true
      [WalkEntry.mk "/app/host_root/d".toList []
        [FileMeta.mk "f.txt".toList true true 5 0 [1, 2, 3, 4, 5] true]])
    (AnalyzeArgs.mk "d".toList true 10 none none)
    "/app/host_root/d".toList (by rfl) rfl rfl
    ⟨WalkEntry.mk "/app/host_root/d".toList []
        [FileMeta.mk "f.txt".toList true true 5 0 [1, 2, 3, 4, 5] true],
      by simp,
      FileMeta.mk "f.txt".toList true true 5 0 [1, 2, 3, 4, 5] true,
      by simp, by constructor <;> simp⟩

/-- Claim C6 (code bug): for the very directory the claim describes —
six readable files of sizes 100, 100, 200, 300, 300, 300 and duplicate
detection on — `analyze_directory` never reaches phase-1 bucketing: the
first file processed raises `AttributeError` at the `.suffix` access and
the whole analysis aborts with HTTP 500. -/
theorem c6_bucketing_unreachable :
    analyze_directory
        (AnalyzeWorld.mk true true
          [WalkEntry.mk "/app/host_root/data".toList []
            [FileMeta.mk "a".toList true true 100 0 [] true,
             FileMeta.mk "b".toList true true 100 0 [] true,
             FileMeta.mk "c".toList true true 200 0 [] true,
             FileMeta.mk "d".toList true true 300 0 [] true,
             FileMeta.mk "e".toList true true 300 0 [] true,
             FileMeta.mk "f".toList true true 300 0 [] true]])
        (AnalyzeArgs.mk "data".toList true 10 none none)
        (fun _ => false) =
      .error (.http 500) := by
  rfl

/-- Claim C5 (counterexample): with the session already cancelled (a flag
that answers `true` to every poll), phase 2 still submits every
size-collision candidate for hashing — the submission loop never consults
the cancellation flag. -/
theorem c5_counterexample :
    phase2Submit (fun _ => true)
        [(100, [FileInfoRec.mk "a".toList "/d/a".toList 100 ".txt".toList 0
            none "/d/a".toList [] true,
          FileInfoRec.mk "b".toList "/d/b".toList 100 ".txt".toList 0
            none "/d/b".toList [] true])] =
      [FileInfoRec.mk "a".toList "/d/a".toList 100 ".txt".toList 0
          none "/d/a".toList [] true,
        FileInfoRec.mk "b".toList "/d/b".toList 100 ".txt".toList 0
          none "/d/b".toList [] true] ∧
      (FileInfoRec.mk "a".toList "/d/a".toList 100 ".txt".toList 0
          none "/d/a".toList [] true) ∈
        phase2Submit (fun _ => true)
          [(100, [FileInfoRec.mk "a".toList "/d/a".toList 100 ".txt".toList 0
              none "/d/a".toList [] true,
            FileInfoRec.mk "b".toList "/d/b".toList 100 ".txt".toList 0
              none "/d/b".toList [] true])] :=
  ⟨by rfl, by simp [phase2Submit, files_to_hash]⟩

/-- Claim C5 (amended): phase 2 never checks the cancellation flag — for
every flag state the submitted work is exactly `files_to_hash` of the size
buckets; and for every cancellation schedule under which phase 1 completes
with the flag observed at the final poll, the analysis returns a normal
outcome carrying exactly the partial results phase 1 accumulated (file
list, counters, empty-directory records) with `cancelled = true`, rather
than discarding them. -/
theorem c5_phase2_no_check_partial_results :
    (∀ (cancelSig : Nat → Bool) (m : List (Nat × List FileInfoRec)),
      phase2Submit cancelSig m = files_to_hash m) ∧
    (∀ (world : AnalyzeWorld) (args : AnalyzeArgs) (vp : List Char)
      (cancelSig : Nat → Bool) (st : Phase1State),
      validate_and_resolve_path args.path hostRoot = .ok vp →
      world.pathExists = true → world.pathIsDir = true →
      phase1EntriesLoop args cancelSig vp world.walk initialPhase1State =
        .ok st →
      cancelSig st.checks = true →
      ∃ r, analyze_directory world args cancelSig = .ok r ∧
        r.cancelled = true ∧
        r.total_files = st.total_files ∧
        r.total_directories = st.total_dirs ∧
        r.total_size = st.total_size ∧
        r.all_files = st.file_list ∧
        r.empty_dirs = st.empty_dirs) := by
  constructor
  · intro cancelSig m
    rfl
  · intro world args vp cancelSig st hv hex hdir hloop hcanc
    rw [analyze_directory, hv]
    dsimp only
    rw [if_neg (by rw [hex]; simp), if_neg (by rw [hdir]; simp), hloop]
    exact ⟨_, rfl, hcanc, rfl, rfl, rfl, rfl, rfl⟩

/-- Witness for the amended claim C5: a three-directory walk whose session
is cancelled after the second poll accumulates one subdirectory and one
empty-directory record before the cancellation break, and the analysis
returns exactly those partial results with `cancelled = true`. -/
theorem c5_witness :
    phase2Submit (fun i => decide (2 ≤ i)) [(7, [])] =
      files_to_hash [(7, [])] ∧
    ∃ r, analyze_directory
        (AnalyzeWorld.mk true true
          [WalkEntry.mk "/app/host_root/data".toList ["sub".toList] [],
           WalkEntry.mk "/app/host_root/data/sub".toList [] [],
           WalkEntry.mk "/app/host_root/data/x".toList [] []])
        (AnalyzeArgs.mk "data".toList true 10 none none)
        (fun i => decide (2 ≤ i)) = .ok r ∧
      r.cancelled = true ∧
      r.total_files = 0 ∧
      r.total_directories = 1 ∧
      r.total_size = 0 ∧
      r.all_files = [] ∧
      r.empty_dirs = ["/data/sub".toList] :=
  ⟨c5_phase2_no_check_partial_results.1 (fun i => decide (2 ≤ i)) [(7, [])],
    c5_phase2_no_check_partial_results.2
      (AnalyzeWorld.mk true true
        [WalkEntry.mk "/app/host_root/data".toList ["sub".toList] [],
         WalkEntry.mk "/app/host_root/data/sub".toList [] [],
         WalkEntry.mk "/app/host_root/data/x".toList [] []])
      (AnalyzeArgs.mk "data".toList true 10 none none)
      "/app/host_root/data".toList
      (fun i => decide (2 ≤ i))
      (Phase1State.mk [] [] [] [] 0 0 1 ["/data/sub".toList] 3)
      (by rfl) rfl rfl (by rfl) (by rfl)⟩

end FileSearchApp
